import Mathlib

/-!
Verification of the DNS message codec (Go, package `main`).

The Go code is shallowly embedded: Go byte slices become `List Nat`
(every entry intended `< 256`), Go `string` values become `GoStr`
(`List Nat` of the string's bytes, since Go strings are byte strings),
`uint8`/`uint16`/`uint32` fields become `Nat` with explicit `% 2^w`
wherever the Go code can overflow, functions that can return a non-nil
`error` carry it in the result, and a Go `panic` / out-of-range slice
access (an uncatchable fault from the caller's point of view, given the
code installs no `recover`) is modelled by `Option.none` around the
whole result.
-/

/-- A Go `string`, viewed as its byte sequence. -/
abbrev GoStr := List Nat

/-- A Go byte slice. -/
abbrev Bytes := List Nat

namespace DNS

/-- The `Header` struct: twelve integer fields of the 12-byte DNS header. -/
structure Header where
  ID : Nat
  QR : Nat
  OPCODE : Nat
  AA : Nat
  TC : Nat
  RD : Nat
  RA : Nat
  Z : Nat
  RCODE : Nat
  QDCOUNT : Nat
  ANCOUNT : Nat
  NSCOUNT : Nat
  ARCOUNT : Nat
  deriving Repr, DecidableEq

/-- The zero value `Header{}` of Go. -/
def Header.zero : Header :=
  ⟨0, 0, 0, 0, 0, 0, 0, 0, 0, 0, 0, 0, 0⟩

/-- `binary.BigEndian.Uint16(data[i:i+2])`: the big-endian 16-bit value of
two bytes, modelled arithmetically. -/
def beUint16 (data : Bytes) (i : Nat) : Nat :=
  data.getD i 0 * 256 + data.getD (i + 1) 0

/-- `binary.BigEndian.Uint32(data[i:i+4])`. -/
def beUint32 (data : Bytes) (i : Nat) : Nat :=
  data.getD i 0 * 16777216 + data.getD (i + 1) 0 * 65536 +
    data.getD (i + 2) 0 * 256 + data.getD (i + 3) 0

/-- `unmarshalHeader`: errors for buffers shorter than 12 bytes, otherwise
unpacks the twelve fields.  Faithful to the source: line 99 assigns
`(data[3] >> 4) & 0x7` to `Z` but line 100 immediately overwrites it with
`data[3] & 0xF`, and `RCODE` is never assigned, so it keeps the zero value
of `Header{}`. -/
def unmarshalHeader (data : Bytes) : Except String Header :=
  if data.length < 12 then
    .error "Invalid header size, need to be at least 12 bytes"
  else
    let b2 := data.getD 2 0
    let b3 := data.getD 3 0
    .ok { ID := beUint16 data 0
          QR := b2 >>> 7
          OPCODE := (b2 >>> 3) &&& 0xF
          AA := (b2 >>> 2) &&& 0x1
          TC := (b2 >>> 1) &&& 0x1
          RD := b2 &&& 0x1
          RA := b3 >>> 7
          -- `header.Z = (data[3] >> 4) & 0x7` is dead: overwritten next line.
          Z := b3 &&& 0xF
          RCODE := 0
          QDCOUNT := beUint16 data 4
          ANCOUNT := beUint16 data 6
          NSCOUNT := beUint16 data 8
          ARCOUNT := beUint16 data 10 }

/-- `byte(x)`: Go conversion of an unsigned value to `byte`. -/
def toByte (x : Nat) : Nat := x % 256

/-- `Header.marshal`: packs the twelve fields into 12 bytes.  The shifts on
the `uint8` flag fields wrap modulo 256 exactly as in Go. -/
def Header.marshal (d : Header) : Bytes :=
  [ toByte (d.ID >>> 8), toByte (d.ID &&& 0xFF),
    (d.QR <<< 7) % 256 ||| (d.OPCODE <<< 3) % 256 ||| (d.AA <<< 2) % 256 |||
      (d.TC <<< 1) % 256 ||| d.RD % 256,
    (d.RA <<< 7) % 256 ||| (d.Z <<< 4) % 256 ||| d.RCODE % 256,
    toByte (d.QDCOUNT >>> 8), toByte (d.QDCOUNT &&& 0xFF),
    toByte (d.ANCOUNT >>> 8), toByte (d.ANCOUNT &&& 0xFF),
    toByte (d.NSCOUNT >>> 8), toByte (d.NSCOUNT &&& 0xFF),
    toByte (d.ARCOUNT >>> 8), toByte (d.ARCOUNT &&& 0xFF) ]

/-- `strings.Split(s, ".")`: splits on every dot byte (46); `n` dots give
`n + 1` pieces, the empty string gives `[""]`. -/
def splitDot : GoStr → List GoStr
  | [] => [[]]
  | c :: rest =>
    if c = 46 then [] :: splitDot rest
    else
      match splitDot rest with
      | [] => [[c]]
      | g :: gs => (c :: g) :: gs

/-- The digit run of `strconv.ParseInt` base 10: `none` unless every byte is
an ASCII digit. -/
def parseDigits (s : GoStr) : Option Nat :=
  s.foldl
    (fun acc c =>
      match acc with
      | none => none
      | some n => if 48 ≤ c ∧ c ≤ 57 then some (n * 10 + (c - 48)) else none)
    (some 0)

/-- `strconv.Atoi`: optional sign, at least one digit, digits only, result
within the 64-bit `int` range; `none` models a non-nil error. -/
def goAtoi (s : GoStr) : Option Int :=
  let signAndDigits : Bool × GoStr :=
    match s with
    | 43 :: rest => (false, rest)
    | 45 :: rest => (true, rest)
    | _ => (false, s)
  if signAndDigits.2 = [] then none
  else
    match parseDigits signAndDigits.2 with
    | none => none
    | some n =>
      let v : Int := if signAndDigits.1 then -(n : Int) else (n : Int)
      if v < -(2 ^ 63) ∨ 2 ^ 63 - 1 < v then none else some v

/-- `byte(n)` for a Go `int` value: the low 8 bits, two's complement. -/
def intToByte (n : Int) : Nat := (n % 256).toNat

/-- The name-encoding loop shared by `Question.marshal` and
`Answer.marshal` (lines 209-217 / 282-290): split the dotted string,
skip empty labels, emit `byte(len(label))` then the label bytes, then the
terminating zero byte. -/
def encodeName (name : GoStr) : Bytes :=
  ((splitDot name).foldl
    (fun acc label =>
      if label.length = 0 then acc
      else acc ++ [toByte label.length] ++ label)
    []) ++ [0]

/-- One iteration of the RDATA-encoding loop of `Answer.marshal`
(lines 306-315): skip empty labels, `strconv.Atoi` the segment — the
`panic("cant convert")` on a parse failure is modelled as `.error`, which
then propagates — and emit `byte(n)`. -/
def rdataStep (acc : Except String Bytes) (label : GoStr) :
    Except String Bytes :=
  match acc with
  | .error e => .error e
  | .ok r =>
    if label.length = 0 then .ok r
    else
      match goAtoi label with
      | none => .error "cant convert"
      | some n => .ok (r ++ [intToByte n])

/-- The RDATA-encoding loop of `Answer.marshal`: fold `rdataStep` over the
dot-separated segments of the data string. -/
def encodeRdata (s : GoStr) : Except String Bytes :=
  (splitDot s).foldl rdataStep (.ok [])

/-- The `Question` struct. -/
structure Question where
  domainName : GoStr
  questionType : Nat
  questionClass : Nat
  deriving Repr, DecidableEq

/-- `Question.marshal`: name encoding followed by `questionType` and
`questionClass`, each as two big-endian bytes. -/
def Question.marshal (q : Question) : Bytes :=
  encodeName q.domainName ++
    [toByte (q.questionType >>> 8), toByte (q.questionType &&& 0xFF),
     toByte (q.questionClass >>> 8), toByte (q.questionClass &&& 0xFF)]

/-- The label-reading loop shared by `unmarshalQuestion` and
`unmarshalAnswer` (lines 187-198 / 324-335): while `index` is in bounds
and `data[index] != 0`, append `"."` when `index != 0`, slice the label
`data[index+1 : index+length+1]` — a slice reaching past the end of the
buffer panics, modelled as `none` — append it, and advance.  Returns the
accumulated name and the final index. -/
def parseName (data : Bytes) (index : Nat) (acc : GoStr) :
    Option (GoStr × Nat) :=
  if h : index < data.length ∧ data.getD index 0 ≠ 0 then
    if index + data.getD index 0 + 1 ≤ data.length then
      parseName data (index + data.getD index 0 + 1)
        ((if index ≠ 0 then acc ++ [46] else acc) ++
          (data.drop (index + 1)).take (data.getD index 0))
    else none
  else some (acc, index)
termination_by data.length - index
decreasing_by simp_wf; omega

/-- `unmarshalQuestion`: parse the name, skip the terminator, then read
`questionType` and `questionClass` as big-endian `u16` — the two slices
`data[index:index+2]` and `data[index+2:index+4]` panic (`none`) when the
buffer is too short.  The returned `error` is the literal `nil` of the
source's `return question, index + 4, nil`. -/
def unmarshalQuestion (data : Bytes) :
    Option (Question × Nat × Option String) :=
  match parseName data 0 [] with
  | none => none
  | some (name, idx) =>
    if idx + 1 + 4 ≤ data.length then
      some (⟨name, beUint16 data (idx + 1), beUint16 data (idx + 1 + 2)⟩,
            idx + 1 + 4, none)
    else none

/-- The `Answer` struct (resource record). -/
structure Answer where
  domainName : GoStr
  answerType : Nat
  answerClass : Nat
  TTL : Nat
  RDLENGTH : Nat
  data : GoStr
  deriving Repr, DecidableEq

/-- `Answer.marshal`: name, type, class, TTL (4 bytes), the
caller-supplied `RDLENGTH` field (2 bytes), then the RDATA bytes from
`encodeRdata`; the whole call fails iff the RDATA loop panics. -/
def Answer.marshal (a : Answer) : Except String Bytes :=
  match encodeRdata a.data with
  | .error e => .error e
  | .ok rdata =>
    .ok (encodeName a.domainName ++
      [toByte (a.answerType >>> 8), toByte (a.answerType &&& 0xFF),
       toByte (a.answerClass >>> 8), toByte (a.answerClass &&& 0xFF),
       toByte (a.TTL >>> 24), toByte ((a.TTL >>> 16) &&& 0xFF),
       toByte ((a.TTL >>> 8) &&& 0xFF), toByte (a.TTL &&& 0xFF),
       toByte (a.RDLENGTH >>> 8), toByte (a.RDLENGTH &&& 0xFF)] ++
      rdata)

/-- `strconv.Itoa` on a nonnegative value, via a structural fuel that is
always sufficient (a decimal representation has at most `n + 1` digits). -/
def natToDecAux : Nat → Nat → GoStr
  | 0, _ => []
  | fuel + 1, n =>
    if n < 10 then [48 + n] else natToDecAux fuel (n / 10) ++ [48 + n % 10]

/-- `strconv.Itoa(int(b))` for a byte value. -/
def natToDec (n : Nat) : GoStr := natToDecAux (n + 1) n

/-- The RDATA-reading loop of `unmarshalAnswer` (lines 343-349): for `i`
from `index + 10` up to `stop = index + 10 + RDLENGTH`, append the decimal
form of `data[i]` — indexing past the end panics (`none`) — followed by a
dot except after the last byte. -/
def readRdata (data : Bytes) (i stop : Nat) (acc : GoStr) : Option GoStr :=
  if i < stop then
    if i < data.length then
      readRdata data (i + 1) stop
        (acc ++ natToDec (data.getD i 0) ++
          (if i < stop - 1 then [46] else []))
    else none
  else some acc
termination_by stop - i

/-- `unmarshalAnswer`: name, then type, class, TTL, RDLENGTH (the four
slices up to `data[index+8 : index+10]` panic when `index + 10` exceeds
the buffer), then `RDLENGTH` RDATA bytes re-rendered as dotted decimal.
The returned `error` is the literal `nil` of the source. -/
def unmarshalAnswer (data : Bytes) :
    Option (Answer × Nat × Option String) :=
  match parseName data 0 [] with
  | none => none
  | some (name, idx) =>
    if idx + 1 + 10 ≤ data.length then
      match readRdata data (idx + 1 + 10)
          (idx + 1 + 10 + beUint16 data (idx + 1 + 8)) [] with
      | none => none
      | some rdata =>
        some (⟨name, beUint16 data (idx + 1), beUint16 data (idx + 1 + 2),
               beUint32 data (idx + 1 + 4), beUint16 data (idx + 1 + 8),
               rdata⟩,
              idx + 1 + 10 + beUint16 data (idx + 1 + 8), none)
    else none

/-- The reply construction of `main` (lines 415-443): from the decoded
query header and question, build the response header, the echoed question
and the synthetic answer.  Fields absent from the Go composite literals
keep their zero values. -/
def buildReply (recivedHeader : Header) (recivedQuestion : Question) :
    Header × Question × Answer :=
  ({ ID := recivedHeader.ID
     QR := 1
     RD := recivedHeader.RD
     OPCODE := recivedHeader.OPCODE
     AA := 0, TC := 0, RA := 0, Z := 0
     RCODE := if recivedHeader.OPCODE = 0 then 0 else 4
     QDCOUNT := 0, ANCOUNT := 0, NSCOUNT := 0, ARCOUNT := 0 },
   { domainName := recivedQuestion.domainName
     questionClass := 1
     questionType := 1 },
   { domainName := recivedQuestion.domainName
     answerType := 1
     answerClass := 1
     TTL := 60
     RDLENGTH := 4
     data := [56, 46, 56, 46, 56, 46, 56] })

/-! Specification-side helper values and views used by the theorems. -/

/-- Labels joined by single dots, as the round-trip claims describe a
well-formed domain name. -/
def dotJoin : List GoStr → GoStr
  | [] => []
  | [l] => l
  | l :: l' :: ls => l ++ 46 :: dotJoin (l' :: ls)

/-- `46 :: l` for every label, concatenated: what the decoder's
accumulator appends after the first label. -/
def dotCat : List GoStr → GoStr
  | [] => []
  | l :: ls => 46 :: l ++ dotCat ls

/-- The wire encoding of a label list: length byte then label bytes, per
label. -/
def encCat : List GoStr → Bytes
  | [] => []
  | l :: ls => toByte l.length :: l ++ encCat ls

/-- The big-endian 16-bit RDLENGTH field inside an encoded resource
record, located after the name bytes, 2+2 type/class bytes and 4 TTL
bytes. -/
def wireRdlength (out : Bytes) (nameBytes : Nat) : Nat :=
  out.getD (nameBytes + 8) 0 * 256 + out.getD (nameBytes + 9) 0

/-- How many RDATA bytes actually follow the RDLENGTH field in an encoded
resource record. -/
def wireRdataCount (out : Bytes) (nameBytes : Nat) : Nat :=
  out.length - (nameBytes + 10)

/-- The header with `RCODE = 1` and every other field zero. -/
def hdrRcode1 : Header :=
  { Header.zero with RCODE := 1 }

/-- An answer whose `RDLENGTH` field (5) disagrees with its one-segment
data string `"8"`. -/
def ansC3 : Answer := ⟨[], 0, 0, 0, 5, [56]⟩

/-- The encoding of `ansC3`: one RDATA byte follows a RDLENGTH of 5. -/
def ansC3out : Bytes := [0, 0, 0, 0, 0, 0, 0, 0, 0, 0, 5, 8]

/-- A question whose name is a single 64-byte label. -/
def qC4 : Question := ⟨List.replicate 64 97, 1, 1⟩

/-- An answer whose data string is `"256"`: one segment, out of byte
range. -/
def ansC6 : Answer := ⟨[], 0, 0, 0, 1, [50, 53, 54]⟩

end DNS

open DNS

/-- C9: `unmarshalHeader` fails with the too-short error on every buffer of
fewer than 12 bytes, and returns a header on every buffer of at least 12
bytes. -/
theorem unmarshalHeader_length_check (data : Bytes) :
    (data.length < 12 →
      unmarshalHeader data =
        .error "Invalid header size, need to be at least 12 bytes") ∧
    (12 ≤ data.length → ∃ h, unmarshalHeader data = .ok h) := by
  constructor
  · intro hlt
    simp [unmarshalHeader, hlt]
  · intro hge
    rw [unmarshalHeader, if_neg (Nat.not_lt.mpr hge)]
    exact ⟨_, rfl⟩

/-- Witness for C9 at the empty buffer and a 12-byte buffer. -/
theorem unmarshalHeader_length_check_witness :
    unmarshalHeader [] =
      .error "Invalid header size, need to be at least 12 bytes" ∧
    ∃ h, unmarshalHeader [0, 0, 0, 0, 0, 0, 0, 0, 0, 0, 0, 0] = .ok h :=
  ⟨(unmarshalHeader_length_check []).1 (by decide),
   (unmarshalHeader_length_check [0, 0, 0, 0, 0, 0, 0, 0, 0, 0, 0, 0]).2
     (by decide)⟩

/-- C1 (bug evidence): the round-trip fails.  Encoding the in-width header
with `RCODE = 1` and decoding the result yields a header whose `RCODE` is 0
and whose `Z` is 1 — decode writes the rcode bits into `Z` (line 100
overwrites line 99's correct value) and never assigns `RCODE`. -/
theorem unmarshalHeader_marshal_not_roundtrip :
    unmarshalHeader (Header.marshal hdrRcode1) =
      .ok { Header.zero with Z := 1, RCODE := 0 } ∧
    ({ Header.zero with Z := 1, RCODE := 0 } : Header) ≠ hdrRcode1 := by
  constructor
  · rfl
  · decide

/-- C2 (bug evidence): on the 12-byte buffer whose byte 3 is `0x35`
(`ra=0, z=3, rcode=5` per the wire layout), the decoder returns
`RA = 0` as claimed but `Z = 5` and `RCODE = 0`, not `Z = 3`, `RCODE = 5`. -/
theorem unmarshalHeader_byte3_bug :
    (unmarshalHeader [0, 0, 0, 0x35, 0, 0, 0, 0, 0, 0, 0, 0]).map
        (fun h => (h.RA, h.Z, h.RCODE)) = .ok (0, 5, 0) ∧
    ((0x35 >>> 7 : Nat), (0x35 >>> 4) &&& 0x7, (0x35 &&& 0xF : Nat)) =
      (0, 3, 5) := by
  constructor
  · rfl
  · decide

/-- C7: the reply derived from any decoded query copies `id`, `rd` and
`opcode`, sets `qr = 1`, sets `rcode` to 0 exactly when the query's opcode
is 0 and to 4 otherwise, leaves `aa`, `tc`, `ra`, `z` zero, and carries one
answer record with the query's name, type 1, class 1, TTL 60 and the data
string `"8.8.8.8"`. -/
theorem buildReply_spec (h : Header) (q : Question) :
    (buildReply h q).1.ID = h.ID ∧
    (buildReply h q).1.QR = 1 ∧
    (buildReply h q).1.RD = h.RD ∧
    (buildReply h q).1.OPCODE = h.OPCODE ∧
    (buildReply h q).1.RCODE = (if h.OPCODE = 0 then 0 else 4) ∧
    (buildReply h q).1.AA = 0 ∧
    (buildReply h q).1.TC = 0 ∧
    (buildReply h q).1.RA = 0 ∧
    (buildReply h q).1.Z = 0 ∧
    (buildReply h q).2.2.domainName = q.domainName ∧
    (buildReply h q).2.2.answerType = 1 ∧
    (buildReply h q).2.2.answerClass = 1 ∧
    (buildReply h q).2.2.TTL = 60 ∧
    (buildReply h q).2.2.data = [56, 46, 56, 46, 56, 46, 56] :=
  ⟨rfl, rfl, rfl, rfl, rfl, rfl, rfl, rfl, rfl, rfl, rfl, rfl, rfl, rfl⟩

/-- C10: whenever `unmarshalQuestion` or `unmarshalAnswer` returns (rather
than panicking), the returned error is `nil`: a caller can never detect a
malformed datagram through the error value. -/
theorem unmarshal_error_always_nil (data : Bytes)
    (r : Question × Nat × Option String) (s : Answer × Nat × Option String) :
    (unmarshalQuestion data = some r → r.2.2 = none) ∧
    (unmarshalAnswer data = some s → s.2.2 = none) := by
  constructor
  · intro h
    unfold unmarshalQuestion at h
    split at h
    · exact absurd h (by simp)
    · split at h
      · cases h
        rfl
      · exact absurd h (by simp)
  · intro h
    unfold unmarshalAnswer at h
    split at h
    · exact absurd h (by simp)
    · split at h
      · split at h
        · exact absurd h (by simp)
        · cases h
          rfl
      · exact absurd h (by simp)

/-- Witness for C10 on two concrete well-formed buffers. -/
theorem unmarshal_error_always_nil_witness :
    ((⟨⟨[], 0, 0⟩, 5, none⟩ : Question × Nat × Option String).2.2 = none) ∧
    ((⟨⟨[], 0, 0, 0, 0, []⟩, 11, none⟩ :
        Answer × Nat × Option String).2.2 = none) :=
  ⟨(unmarshal_error_always_nil [0, 0, 0, 0, 0] ⟨⟨[], 0, 0⟩, 5, none⟩
      ⟨⟨[], 0, 0, 0, 0, []⟩, 11, none⟩).1
    (by simp [unmarshalQuestion, parseName, beUint16]),
   (unmarshal_error_always_nil (List.replicate 11 0) ⟨⟨[], 0, 0⟩, 5, none⟩
      ⟨⟨[], 0, 0, 0, 0, []⟩, 11, none⟩).2
    (by simp [unmarshalAnswer, parseName, readRdata, beUint16, beUint32])⟩

/-- Helper: `strings.Split` of a dot-free string is the singleton list. -/
theorem splitDot_no_dot (s : GoStr) (h : 46 ∉ s) : splitDot s = [s] := by
  induction s with
  | nil => rfl
  | cons c rest ih =>
    have hc : c ≠ 46 := fun e => h (e ▸ List.mem_cons_self c rest)
    have hr : 46 ∉ rest := fun m => h (List.mem_cons_of_mem _ m)
    simp [splitDot, hc, ih hr]

/-- Helper: the name encoding of a single dot-free non-empty label. -/
theorem encodeName_no_dot (label : GoStr) (hne : label ≠ []) (hd : 46 ∉ label) :
    encodeName label = toByte label.length :: label ++ [0] := by
  unfold encodeName
  rw [splitDot_no_dot label hd]
  have hlen : label.length ≠ 0 := by simpa using hne
  simp [hlen, hne]

/-- C5 (counterexample): the buffer `[2, 65]` declares a 2-byte label but
holds only one more byte; the decoder panics on the out-of-range slice
(modelled `none`) instead of returning a truncation error value. -/
theorem unmarshalQuestion_truncated_label_panics :
    unmarshalQuestion [2, 65] = none := by
  simp [unmarshalQuestion, parseName]

/-- C5 (amended): when the first label's declared length would read past
the end of the buffer, `unmarshalQuestion` panics (`none`); it never
returns a truncation error value. -/
theorem unmarshalQuestion_truncated_first_label (data : Bytes)
    (h0 : 0 < data.length) (hnz : data.getD 0 0 ≠ 0)
    (hshort : data.length < data.getD 0 0 + 1) :
    unmarshalQuestion data = none := by
  unfold unmarshalQuestion
  have hp : parseName data 0 [] = none := by
    rw [parseName]
    rw [dif_pos (show 0 < data.length ∧ data.getD 0 0 ≠ 0 from ⟨h0, hnz⟩)]
    rw [if_neg (show ¬(0 + data.getD 0 0 + 1 ≤ data.length) by omega)]
  rw [hp]

/-- Witness for the amended C5 on the buffer `[5, 1, 1]`. -/
theorem unmarshalQuestion_truncated_first_label_witness :
    unmarshalQuestion [5, 1, 1] = none :=
  unmarshalQuestion_truncated_first_label [5, 1, 1] (by decide) (by decide)
    (by decide)

/-- C4 (counterexample): encoding a name whose single label is 64 bytes
long does not fail — `Question.marshal` cannot fail at all — and writes
the length byte 64 followed by the label. -/
theorem question_marshal_64_byte_label_encodes :
    Question.marshal qC4 = 64 :: (List.replicate 64 97 ++ [0, 0, 1, 0, 1]) := by
  decide

/-- C4 (amended): the encoder enforces no 63-byte bound: for every
dot-free non-empty label of any length, `Question.marshal` produces
`byte(len)` followed by the label bytes, the terminator and the two
16-bit fields. -/
theorem question_marshal_no_length_check (label : GoStr) (t c : Nat)
    (hne : label ≠ []) (hd : 46 ∉ label) :
    Question.marshal ⟨label, t, c⟩ =
      toByte label.length :: label ++
        [0, toByte (t >>> 8), toByte (t &&& 0xFF),
         toByte (c >>> 8), toByte (c &&& 0xFF)] := by
  unfold Question.marshal
  rw [encodeName_no_dot label hne hd]
  simp

/-- Witness for the amended C4 at a 64-byte label. -/
theorem question_marshal_no_length_check_witness :
    Question.marshal ⟨List.replicate 64 98, 0, 0⟩ =
      toByte (List.replicate 64 98 : GoStr).length :: List.replicate 64 98 ++
        [0, toByte (0 >>> 8), toByte (0 &&& 0xFF),
         toByte (0 >>> 8), toByte (0 &&& 0xFF)] :=
  question_marshal_no_length_check (List.replicate 64 98) 0 0 (by decide)
    (by decide)

/-- C6 (counterexample): the RDATA segment `"256"` parses via
`strconv.Atoi` to 256, so `Answer.marshal` does not fail; `byte(256)`
silently wraps to 0 in the output. -/
theorem answer_marshal_256_wraps :
    Answer.marshal ansC6 = .ok [0, 0, 0, 0, 0, 0, 0, 0, 0, 0, 1, 0] ∧
    goAtoi [50, 53, 54] = some 256 := by
  constructor
  · rfl
  · rfl

/-- Helper: the RDATA fold keeps an error once one occurred. -/
theorem foldl_rdataStep_error (ls : List GoStr) (e : String) :
    ls.foldl rdataStep (.error e) = .error e := by
  induction ls with
  | nil => rfl
  | cons l ls ih => exact ih

/-- Helper: the RDATA fold from an `ok` state succeeds iff every
non-empty segment parses with `strconv.Atoi`. -/
theorem foldl_rdataStep_ok_iff (ls : List GoStr) (r : Bytes) :
    (∃ out, ls.foldl rdataStep (.ok r) = .ok out) ↔
      ∀ l ∈ ls, l ≠ [] → (goAtoi l).isSome := by
  induction ls generalizing r with
  | nil => simp
  | cons l ls ih =>
    rw [List.foldl_cons]
    by_cases hl : l.length = 0
    · have hl' : l = [] := List.length_eq_zero.mp hl
      have hstep : rdataStep (.ok r) l = .ok r := by simp [rdataStep, hl]
      rw [hstep, ih]
      simp [hl']
    · have hl' : l ≠ [] := fun e => hl (by simp [e])
      cases hg : goAtoi l with
      | none =>
        have hstep : rdataStep (.ok r) l = .error "cant convert" := by
          simp [rdataStep, hl, hg]
        rw [hstep, foldl_rdataStep_error]
        constructor
        · rintro ⟨out, hout⟩
          exact absurd hout (by simp)
        · intro hall
          have := hall l (List.mem_cons_self l ls) hl'
          rw [hg] at this
          simp at this
      | some n =>
        have hstep : rdataStep (.ok r) l = .ok (r ++ [intToByte n]) := by
          simp [rdataStep, hl, hg]
        rw [hstep, ih]
        constructor
        · intro hall l' hm
          rcases List.mem_cons.mp hm with rfl | hm'
          · intro _
            rw [hg]
            rfl
          · exact hall l' hm'
        · intro hall l' hm'
          exact hall l' (List.mem_cons_of_mem _ hm')

/-- C6 (amended): `Answer.marshal` fails (panics) iff some non-empty
dot-separated segment of the data string does not parse as an integer via
`strconv.Atoi` — out-of-range values such as 256 still parse and are
silently wrapped by `byte(n)` rather than rejected. -/
theorem answer_marshal_fails_iff (a : Answer) :
    (∃ out, Answer.marshal a = .ok out) ↔
      ∀ l ∈ splitDot a.data, l ≠ [] → (goAtoi l).isSome := by
  rw [← foldl_rdataStep_ok_iff (splitDot a.data) []]
  unfold Answer.marshal encodeRdata
  cases hf : (splitDot a.data).foldl rdataStep (.ok []) with
  | error e => simp
  | ok rd => simp

/-- C3 (counterexample): for the answer whose `RDLENGTH` field is 5 but
whose data string `"8"` yields one RDATA byte, the encoded RDLENGTH wire
field reads 5 while only 1 RDATA byte follows it. -/
theorem answer_rdlength_not_recomputed :
    Answer.marshal ansC3 = .ok ansC3out ∧
    wireRdlength ansC3out (encodeName ansC3.domainName).length = 5 ∧
    wireRdataCount ansC3out (encodeName ansC3.domainName).length = 1 ∧
    (5 : Nat) ≠ 1 := by
  refine ⟨rfl, by decide, by decide, by decide⟩

/-- C3 (amended): the RDLENGTH wire field is the caller-supplied
`RDLENGTH` struct field, copied — not recomputed from the RDATA bytes. -/
theorem answer_marshal_rdlength_from_field (a : Answer) (out : Bytes)
    (hr : a.RDLENGTH < 65536) (hm : Answer.marshal a = .ok out) :
    wireRdlength out (encodeName a.domainName).length = a.RDLENGTH := by
  have key : ∀ N mid rd : Bytes, mid.length = 10 →
      wireRdlength (N ++ (mid ++ rd)) N.length =
        mid.getD 8 0 * 256 + mid.getD 9 0 := by
    intro N mid rd hmid
    unfold wireRdlength
    rw [List.getD_append_right _ _ _ _ (Nat.le_add_right _ 8),
        List.getD_append_right _ _ _ _ (Nat.le_add_right _ 9),
        Nat.add_sub_cancel_left, Nat.add_sub_cancel_left,
        List.getD_append _ _ _ _ (by omega),
        List.getD_append _ _ _ _ (by omega)]
  unfold Answer.marshal at hm
  cases he : encodeRdata a.data with
  | error e =>
    rw [he] at hm
    exact absurd hm (by simp)
  | ok rdata =>
    rw [he] at hm
    have hm' := Except.ok.inj hm
    subst hm'
    have hk := key (encodeName a.domainName)
      [toByte (a.answerType >>> 8), toByte (a.answerType &&& 0xFF),
       toByte (a.answerClass >>> 8), toByte (a.answerClass &&& 0xFF),
       toByte (a.TTL >>> 24), toByte ((a.TTL >>> 16) &&& 0xFF),
       toByte ((a.TTL >>> 8) &&& 0xFF), toByte (a.TTL &&& 0xFF),
       toByte (a.RDLENGTH >>> 8), toByte (a.RDLENGTH &&& 0xFF)]
      rdata (by simp)
    rw [List.append_assoc, hk]
    show toByte (a.RDLENGTH >>> 8) * 256 + toByte (a.RDLENGTH &&& 0xFF) =
      a.RDLENGTH
    have hmod : a.RDLENGTH &&& 0xFF = a.RDLENGTH % 256 := by
      simpa using Nat.and_pow_two_sub_one_eq_mod a.RDLENGTH 8
    have hdiv : a.RDLENGTH >>> 8 = a.RDLENGTH / 256 := by
      simpa using Nat.shiftRight_eq_div_pow a.RDLENGTH 8
    simp only [toByte, hmod, hdiv]
    omega

/-- Witness for the amended C3 at the concrete answer `ansC3`. -/
theorem answer_marshal_rdlength_from_field_witness :
    wireRdlength ansC3out (encodeName ansC3.domainName).length =
      ansC3.RDLENGTH :=
  answer_marshal_rdlength_from_field ansC3 ansC3out (by decide) rfl

/-- Helper: reading past a prefix indexes into the suffix. -/
theorem getD_append_add (l l' : Bytes) (k d : Nat) :
    (l ++ l').getD (l.length + k) d = l'.getD k d := by
  rw [List.getD_append_right _ _ _ _ (Nat.le_add_right _ _),
      Nat.add_sub_cancel_left]

/-- Helper: `dotJoin` unfolds to the head label followed by dotted tail. -/
theorem dotJoin_cons (l : GoStr) (ls : List GoStr) :
    dotJoin (l :: ls) = l ++ dotCat ls := by
  induction ls generalizing l with
  | nil => simp [dotJoin, dotCat]
  | cons l' ls' ih =>
    rw [dotJoin, ih l', dotCat]
    simp

/-- Helper: splitting a string that starts with a dot-free piece before an
explicit dot peels off that piece. -/
theorem splitDot_append_dot (l : GoStr) (s : GoStr) (h : 46 ∉ l) :
    splitDot (l ++ 46 :: s) = l :: splitDot s := by
  induction l with
  | nil => simp [splitDot]
  | cons c rest ih =>
    have hc : c ≠ 46 := fun e => h (e ▸ List.mem_cons_self c rest)
    have hr : 46 ∉ rest := fun m => h (List.mem_cons_of_mem _ m)
    rw [List.cons_append, splitDot, if_neg hc, ih hr]

/-- Helper: splitting the dotted join of dot-free labels recovers the
labels. -/
theorem splitDot_dotJoin (labels : List GoStr)
    (hd : ∀ l ∈ labels, 46 ∉ l) (hnl : labels ≠ []) :
    splitDot (dotJoin labels) = labels := by
  induction labels with
  | nil => contradiction
  | cons l ls ih =>
    cases ls with
    | nil => exact splitDot_no_dot l (hd l (List.mem_cons_self l []))
    | cons l' ls' =>
      rw [dotJoin, splitDot_append_dot l _ (hd l (List.mem_cons_self _ _)),
          ih (fun x hx => hd x (List.mem_cons_of_mem _ hx)) (by simp)]

/-- Helper: the name-encoding fold over non-empty labels appends their
wire encoding. -/
theorem foldl_encodeName_step (labels : List GoStr) :
    ∀ acc : Bytes, (∀ l ∈ labels, l ≠ []) →
      labels.foldl
        (fun acc label =>
          if label.length = 0 then acc
          else acc ++ [toByte label.length] ++ label)
        acc = acc ++ encCat labels := by
  induction labels with
  | nil => intro acc _; simp [encCat]
  | cons l ls ih =>
    intro acc hne
    have hl : l ≠ [] := hne l (List.mem_cons_self l ls)
    have hlen : l.length ≠ 0 := by simpa using hl
    rw [List.foldl_cons, if_neg hlen,
        ih _ (fun x hx => hne x (List.mem_cons_of_mem _ hx)), encCat]
    simp

/-- Helper: `encodeName` of a well-formed dotted name is the label
encodings followed by the zero terminator. -/
theorem encodeName_dotJoin (labels : List GoStr)
    (hne : ∀ l ∈ labels, l ≠ []) (hd : ∀ l ∈ labels, 46 ∉ l)
    (hnl : labels ≠ []) :
    encodeName (dotJoin labels) = encCat labels ++ [0] := by
  unfold encodeName
  rw [splitDot_dotJoin labels hd hnl, foldl_encodeName_step labels [] hne]
  simp

/-- Helper: the decoder's label loop, started past a non-empty prefix,
consumes exactly the encoded labels up to the zero terminator, appending
each label after a dot. -/
theorem parseName_encCat (labels : List GoStr) :
    ∀ (pre : Bytes) (acc : GoStr) (tail : Bytes),
      (∀ l ∈ labels, l ≠ [] ∧ l.length ≤ 63) → 0 < pre.length →
      parseName (pre ++ (encCat labels ++ (0 :: tail))) pre.length acc =
        some (acc ++ dotCat labels, pre.length + (encCat labels).length) := by
  induction labels with
  | nil =>
    intro pre acc tail _ hpre
    rw [parseName]
    have hg : (pre ++ (encCat [] ++ (0 :: tail))).getD pre.length 0 = 0 := by
      have := getD_append_add pre (encCat [] ++ (0 :: tail)) 0 0
      simpa [encCat] using this
    rw [dif_neg (fun hcon => hcon.2 hg)]
    simp [dotCat, encCat]
  | cons l ls ih =>
    intro pre acc tail hlab hpre
    obtain ⟨hne, hlen⟩ := hlab l (List.mem_cons_self l ls)
    have htb : toByte l.length = l.length := Nat.mod_eq_of_lt (by omega)
    have hlz : l.length ≠ 0 := by simpa using hne
    simp only [encCat, htb, List.cons_append, List.append_assoc]
    rw [parseName]
    have hg : (pre ++
        (l.length :: (l ++ (encCat ls ++ (0 :: tail))))).getD pre.length 0 =
        l.length := by
      have := getD_append_add pre
        (l.length :: (l ++ (encCat ls ++ (0 :: tail)))) 0 0
      simpa using this
    have hlt : pre.length <
        (pre ++ (l.length :: (l ++ (encCat ls ++ (0 :: tail))))).length := by
      simp only [List.length_append, List.length_cons]
      omega
    rw [dif_pos ⟨hlt, by rw [hg]; exact hlz⟩]
    rw [hg]
    have hle : pre.length + l.length + 1 ≤
        (pre ++ (l.length :: (l ++ (encCat ls ++ (0 :: tail))))).length := by
      simp only [List.length_append, List.length_cons]
      omega
    rw [if_pos hle]
    have hdrop : (pre ++
        (l.length :: (l ++ (encCat ls ++ (0 :: tail))))).drop
          (pre.length + 1) = l ++ (encCat ls ++ (0 :: tail)) := by
      simp
    rw [hdrop, List.take_left, if_pos (by omega : pre.length ≠ 0)]
    have hdata : pre ++ (l.length :: (l ++ (encCat ls ++ (0 :: tail)))) =
        (pre ++ (l.length :: l)) ++ (encCat ls ++ (0 :: tail)) := by
      simp
    have hidx : pre.length + l.length + 1 =
        (pre ++ (l.length :: l)).length := by
      simp only [List.length_append, List.length_cons]
      omega
    rw [hdata, hidx,
        ih (pre ++ (l.length :: l)) (acc ++ [46] ++ l) tail
          (fun x hx => hlab x (List.mem_cons_of_mem _ hx))
          (by simp only [List.length_append, List.length_cons]; omega)]
    simp only [Option.some.injEq, Prod.mk.injEq, dotCat]
    constructor
    · simp
    · simp only [List.length_append, List.length_cons]
      omega

/-- Helper: the decoder's label loop from index 0 on a full encoded name. -/
theorem parseName_encCat_zero (l : GoStr) (ls : List GoStr) (tail : Bytes)
    (hlab : ∀ x ∈ l :: ls, x ≠ [] ∧ x.length ≤ 63) :
    parseName (encCat (l :: ls) ++ (0 :: tail)) 0 [] =
      some (l ++ dotCat ls, (encCat (l :: ls)).length) := by
  obtain ⟨hne, hlen⟩ := hlab l (List.mem_cons_self l ls)
  have htb : toByte l.length = l.length := Nat.mod_eq_of_lt (by omega)
  have hlz : l.length ≠ 0 := by simpa using hne
  simp only [encCat, htb, List.cons_append, List.append_assoc]
  rw [parseName]
  rw [dif_pos ⟨by simp, by simpa using hlz⟩]
  simp only [List.getD_cons_zero]
  have hle : 0 + l.length + 1 ≤
      (l.length :: (l ++ (encCat ls ++ (0 :: tail)))).length := by
    simp only [List.length_cons, List.length_append]
    omega
  rw [if_pos hle]
  have hdrop : (l.length :: (l ++ (encCat ls ++ (0 :: tail)))).drop (0 + 1) =
      l ++ (encCat ls ++ (0 :: tail)) := by
    simp
  rw [hdrop, List.take_left, if_neg (by omega : ¬(0 : Nat) ≠ 0)]
  have hdata : l.length :: (l ++ (encCat ls ++ (0 :: tail))) =
      ((l.length :: l) ++ (encCat ls ++ (0 :: tail))) := by
    simp
  have hidx : 0 + l.length + 1 = (l.length :: l : Bytes).length := by
    simp only [List.length_cons]
    omega
  rw [hdata, hidx,
      parseName_encCat ls (l.length :: l) ([] ++ l) tail
        (fun x hx => hlab x (List.mem_cons_of_mem _ hx))
        (by simp)]
  simp only [Option.some.injEq, Prod.mk.injEq, List.nil_append]
  constructor
  · trivial
  · simp only [List.length_cons, List.length_append]
    omega

/-- Helper: the two big-endian bytes emitted for a 16-bit value recombine
to that value. -/
theorem be_split (x : Nat) (hx : x < 65536) :
    toByte (x >>> 8) * 256 + toByte (x &&& 0xFF) = x := by
  have hmod : x &&& 0xFF = x % 256 := by
    simpa using Nat.and_pow_two_sub_one_eq_mod x 8
  have hdiv : x >>> 8 = x / 256 := by
    simpa using Nat.shiftRight_eq_div_pow x 8
  simp only [toByte, hmod, hdiv]
  omega

/-- Helper: reading a 16-bit field right after the name terminator. -/
theorem beUint16_append_cons (A : Bytes) (b0 b1 : Nat) (rest : Bytes) :
    beUint16 (A ++ (0 :: (b0 :: b1 :: rest))) (A.length + 1) =
      b0 * 256 + b1 := by
  unfold beUint16
  have h1 : (A ++ (0 :: (b0 :: b1 :: rest))).getD (A.length + 1) 0 = b0 := by
    have := getD_append_add A (0 :: (b0 :: b1 :: rest)) 1 0
    simpa using this
  have h2 : (A ++ (0 :: (b0 :: b1 :: rest))).getD (A.length + 1 + 1) 0 =
      b1 := by
    have h := getD_append_add A (0 :: (b0 :: b1 :: rest)) 2 0
    have he : A.length + 1 + 1 = A.length + 2 := by omega
    rw [he]
    simpa using h
  rw [h1, h2]

/-- Helper: reading the second 16-bit field after the name terminator. -/
theorem beUint16_append_cons3 (A : Bytes) (b0 b1 b2 b3 : Nat) :
    beUint16 (A ++ (0 :: (b0 :: b1 :: b2 :: b3 :: []))) (A.length + 1 + 2) =
      b2 * 256 + b3 := by
  unfold beUint16
  have h1 : (A ++ (0 :: (b0 :: b1 :: b2 :: b3 :: []))).getD
      (A.length + 1 + 2) 0 = b2 := by
    have h := getD_append_add A (0 :: (b0 :: b1 :: b2 :: b3 :: [])) 3 0
    have he : A.length + 1 + 2 = A.length + 3 := by omega
    rw [he]
    simpa using h
  have h2 : (A ++ (0 :: (b0 :: b1 :: b2 :: b3 :: []))).getD
      (A.length + 1 + 2 + 1) 0 = b3 := by
    have h := getD_append_add A (0 :: (b0 :: b1 :: b2 :: b3 :: [])) 4 0
    have he : A.length + 1 + 2 + 1 = A.length + 4 := by omega
    rw [he]
    simpa using h
  rw [h1, h2]

/-- C8: Question codec round-trip.  For every question whose name is
non-empty dot-free labels of length 1-63 joined by single dots and whose
type and class are in `u16` range, decoding the encoding returns the same
question, a `nil` error, and a consumed-byte count equal to the encoded
length (name bytes including the zero terminator, plus 4). -/
theorem question_roundtrip (labels : List GoStr) (t c : Nat)
    (hnl : labels ≠ [])
    (hlab : ∀ l ∈ labels, l ≠ [] ∧ l.length ≤ 63 ∧ 46 ∉ l)
    (ht : t < 65536) (hc : c < 65536) :
    unmarshalQuestion (Question.marshal ⟨dotJoin labels, t, c⟩) =
      some (⟨dotJoin labels, t, c⟩,
            (Question.marshal ⟨dotJoin labels, t, c⟩).length, none) := by
  obtain ⟨l, ls, rfl⟩ : ∃ l ls, labels = l :: ls := by
    cases labels with
    | nil => exact absurd rfl hnl
    | cons a b => exact ⟨a, b, rfl⟩
  have hm : Question.marshal ⟨dotJoin (l :: ls), t, c⟩ =
      encCat (l :: ls) ++
        (0 :: [toByte (t >>> 8), toByte (t &&& 0xFF),
               toByte (c >>> 8), toByte (c &&& 0xFF)]) := by
    show encodeName (dotJoin (l :: ls)) ++ _ = _
    rw [encodeName_dotJoin (l :: ls) (fun x hx => (hlab x hx).1)
        (fun x hx => (hlab x hx).2.2) (by simp)]
    simp
  have hle5 : (encCat (l :: ls)).length + 1 + 4 ≤
      (encCat (l :: ls) ++
        (0 :: [toByte (t >>> 8), toByte (t &&& 0xFF),
               toByte (c >>> 8), toByte (c &&& 0xFF)])).length := by
    simp only [List.length_append, List.length_cons, List.length_nil]
    omega
  have hK5 : (encCat (l :: ls) ++
      (0 :: [toByte (t >>> 8), toByte (t &&& 0xFF),
             toByte (c >>> 8), toByte (c &&& 0xFF)])).length =
      (encCat (l :: ls)).length + 1 + 4 := by
    simp only [List.length_append, List.length_cons, List.length_nil]
  rw [hm]
  unfold unmarshalQuestion
  rw [parseName_encCat_zero l ls _
      (fun x hx => ⟨(hlab x hx).1, (hlab x hx).2.1⟩)]
  dsimp only
  rw [if_pos hle5]
  rw [beUint16_append_cons (encCat (l :: ls)) (toByte (t >>> 8))
      (toByte (t &&& 0xFF)) [toByte (c >>> 8), toByte (c &&& 0xFF)]]
  rw [beUint16_append_cons3 (encCat (l :: ls)) (toByte (t >>> 8))
      (toByte (t &&& 0xFF)) (toByte (c >>> 8)) (toByte (c &&& 0xFF))]
  rw [be_split t ht, be_split c hc, dotJoin_cons, hK5]

/-- Witness for C8 at the name `"a.b"` with type 1 and class 1. -/
theorem question_roundtrip_witness :
    unmarshalQuestion (Question.marshal ⟨dotJoin [[97], [98]], 1, 1⟩) =
      some (⟨dotJoin [[97], [98]], 1, 1⟩,
            (Question.marshal ⟨dotJoin [[97], [98]], 1, 1⟩).length, none) :=
  question_roundtrip [[97], [98]] 1 1 (by decide) (by decide) (by decide)
    (by decide)
